import Mathlib

/-!
Verification of the part-number conversion tool
(`LegacyPartNumberConversionFinder.py`).

Shallow embedding of:
  * the Convert Part Numbers button handler (lines 134-148): copy,
    project master to key/value, `astype(str).str.strip()` on both key
    columns, `drop_duplicates` (keep first), left `pd.merge`, rename of
    the value column, conditional drop of the master key column, and
    `fillna` of the output column with the not-found sentinel;
  * `load_data_file` (lines 15-42): extension dispatch, the
    openpyxl-to-xlrd fallback, and the catch-all that turns any parser
    exception into a displayed diagnostic plus a `None` return.

Cells are text, integers, or missing (pandas `NaN`); `astype(str)`
renders an integer with `toString` and a missing cell as `nan`, and
`str.strip` removes leading and trailing whitespace.
-/

/-- A cell of a loaded table: text, an integer, or a missing value (NaN). -/
inductive Cell where
  | text (s : String)
  | num (n : Int)
  | missing
deriving DecidableEq, Repr

/-- A table: ordered column names and rows of cells.  The DataFrame
invariant is that every row has exactly `cols.length` cells; theorems
assume it where they need it. -/
structure Table where
  cols : List String
  rows : List (List Cell)
deriving DecidableEq, Repr

/-- The string rendering `astype(str)` gives a cell: text unchanged,
integers via decimal notation, `NaN` becomes the text `nan`. -/
def strCell : Cell → String
  | .text s => s
  | .num n => toString n
  | .missing => "nan"

/-- Python `str.strip()`: remove leading and trailing whitespace. -/
def pyStrip (s : String) : String :=
  ⟨((s.data.dropWhile Char.isWhitespace).reverse.dropWhile Char.isWhitespace).reverse⟩

/-- Key normalization from lines 138-139: `astype(str).str.strip()`. -/
def normalizeKey (c : Cell) : Cell := .text (pyStrip (strCell c))

/-- Cell of a row at a column index (missing when out of range). -/
def cellAt (r : List Cell) (i : Nat) : Cell := r.getD i Cell.missing

/-- Index of the first column with the given label, as pandas label
lookup finds it. -/
def colIdx : List String → String → Option Nat
  | [], _ => none
  | c :: cs, x => if c = x then some 0 else (colIdx cs x).map (· + 1)

/-- The master mapping column pair of line 137-138: for each master row,
the normalized key cell and the raw value cell. -/
def mappingRows (master : Table) (mi vi : Nat) : List (Cell × Cell) :=
  master.rows.map (fun r => (normalizeKey (cellAt r mi), cellAt r vi))

/-- `drop_duplicates(subset=[key])` with the default first-wins policy,
tracked by the set of keys already seen. -/
def dedupFirstAux (seen : List Cell) : List (Cell × Cell) → List (Cell × Cell)
  | [] => []
  | p :: ps =>
    if p.1 ∈ seen then dedupFirstAux seen ps
    else p :: dedupFirstAux (p.1 :: seen) ps

/-- Line 140: deduplicate the mapping by key, keeping the first
occurrence in original row order. -/
def dedupFirst (l : List (Cell × Cell)) : List (Cell × Cell) :=
  dedupFirstAux [] l

/-- All mapping entries whose key equals `k`, in mapping order. -/
def matchesFor (mapping : List (Cell × Cell)) (k : Cell) : List (Cell × Cell) :=
  mapping.filter (fun p => decide (p.1 = k))

/-- Line 142, `pd.merge(user, mapping, left_on=u, right_on=m,
how=left)` specialized to a two-column right side: every left row in
order, fanned out over its matching mapping entries, or padded with
missing cells when unmatched.  When the two key labels coincide pandas
keeps a single key column; otherwise the right key column is appended
too. -/
def mergeLeft (left : Table) (ui : Nat) (u m v : String)
    (mapping : List (Cell × Cell)) : Table :=
  { cols := left.cols ++ (if u = m then [v] else [m, v]),
    rows := left.rows.flatMap (fun r =>
      let ms := matchesFor mapping (cellAt r ui)
      if ms.isEmpty then
        [r ++ (if u = m then [Cell.missing] else [Cell.missing, Cell.missing])]
      else
        ms.map (fun p => r ++ (if u = m then [p.2] else [p.1, p.2]))) }

/-- Line 145: rename every column labelled `old` to `new`. -/
def renameCol (t : Table) (old new : String) : Table :=
  { cols := t.cols.map (fun c => if c = old then new else c),
    rows := t.rows }

/-- Line 147: drop the column labelled `c` (first occurrence; labels are
unique in well-formed tables). -/
def dropCol (t : Table) (c : String) : Table :=
  match colIdx t.cols c with
  | none => t
  | some i => { cols := t.cols.eraseIdx i, rows := t.rows.map (fun r => r.eraseIdx i) }

/-- `fillna` on one cell: replace a missing value by text `s`. -/
def fillCell (s : String) : Cell → Cell
  | .missing => .text s
  | c => c

/-- Line 148: `fillna` over one column. -/
def fillnaCol (t : Table) (c : String) (s : String) : Table :=
  match colIdx t.cols c with
  | none => t
  | some i =>
    { cols := t.cols,
      rows := t.rows.map (fun r => r.set i (fillCell s (cellAt r i))) }

/-- The fixed output column label of line 144. -/
def OUT_COL : String := "Converted Part Number"

/-- The not-found sentinel of line 148. -/
def NOT_FOUND : String := "--- NOT FOUND ---"

/-- The Convert Part Numbers handler, lines 134-148: fails fast (with
`none`) when a selected column is absent, otherwise normalizes the user
key column in place on the copy, builds the deduplicated mapping,
left-merges, renames the value column to the output label, drops the
master key column when the two key labels differ, and fills unmatched
cells with the sentinel. -/
def convert (user master : Table) (u m v : String) : Option Table :=
  match colIdx user.cols u, colIdx master.cols m, colIdx master.cols v with
  | some ui, some mi, some vi =>
    let userN : Table :=
      ⟨user.cols, user.rows.map (fun r => r.set ui (normalizeKey (cellAt r ui)))⟩
    let mapping := dedupFirst (mappingRows master mi vi)
    let merged := mergeLeft userN ui u m v mapping
    let renamed := renameCol merged v OUT_COL
    let pruned := if u ≠ m then dropCol renamed m else renamed
    some (fillnaCol pruned OUT_COL NOT_FOUND)
  | _, _, _ => none

/-- Python `str.lower()` on a string. -/
def lowerStr (s : String) : String := ⟨s.data.map Char.toLower⟩

/-- Python `str.endswith(suf)`. -/
def endsWithStr (s suf : String) : Bool := suf.data.isSuffixOf s.data

/-- Python `pat in s`: substring containment. -/
def containsSub (s pat : String) : Bool :=
  (List.range (s.data.length + 1)).any (fun i => pat.data.isPrefixOf (s.data.drop i))

/-- The parsing engines `load_data_file` can invoke, as black boxes:
each takes the `skiprows` count (derived from the header row) and
either returns a parsed table or throws an exception carrying a
message.  The `xlrd` engine additionally depends on the read position
of the stream at the moment of the call (the source calls `seek(0)`
before retrying with it). -/
structure Engines where
  read_csv : Nat → Except String Table
  pyxlsb : Nat → Except String Table
  openpyxl : Nat → Except String Table
  xlrd : Nat → Nat → Except String Table

/-- Does the lowercased name have one of the delimited-text endings of
line 24? -/
def isTextName (nl : String) : Bool :=
  endsWithStr nl ".csv" || endsWithStr nl ".tsv" || endsWithStr nl ".txt"

/-- Does the lowercased name have one of the spreadsheet endings of
line 30? -/
def isExcelName (nl : String) : Bool :=
  endsWithStr nl ".xlsx" || endsWithStr nl ".xlsm" || endsWithStr nl ".xls"

/-- The body of the `try` block of `load_data_file` (lines 24-38):
extension dispatch, with the openpyxl-to-xlrd fallback for the
spreadsheet endings.  An `Except.error` is an exception escaping the
`try` body; `Except.ok none` is the fall-through when no ending
matches (the function body ends without a `return`). -/
def tryBody (name : String) (eng : Engines) (sk : Nat) : Except String (Option Table) :=
  let nl := lowerStr name
  if isTextName nl then (eng.read_csv sk).map some
  else if endsWithStr nl ".xlsb" then (eng.pyxlsb sk).map some
  else if isExcelName nl then
    match eng.openpyxl sk with
    | .ok t => .ok (some t)
    | .error e =>
      if containsSub (lowerStr e) "zip file" || endsWithStr nl ".xls" then
        (eng.xlrd 0 sk).map some
      else .error e
  else .ok none

/-- What `load_data_file` hands back to its caller: a table, or `None`
after displaying a diagnostic carrying the file name and the cause
(`failure`), or a bare `None` with no diagnostic (`silent`, the
fall-through for an unhandled extension). -/
inductive LoadOutcome where
  | table (t : Table)
  | failure (fileName : String) (cause : String)
  | silent
deriving DecidableEq

/-- `load_data_file` (lines 15-42): compute `skiprows`, run the `try`
body, and convert any escaping exception into a displayed diagnostic
plus a `None` return. -/
def load_data_file (name : String) (eng : Engines) (header_row : Nat) : LoadOutcome :=
  match tryBody name eng (header_row - 1) with
  | .ok (some t) => .table t
  | .ok none => .silent
  | .error e => .failure name e

/-- The supported upload extensions (the `SUPPORTED_TYPES` list of
line 88, as name endings). -/
def supportedName (nl : String) : Bool :=
  isTextName nl || endsWithStr nl ".xlsb" || isExcelName nl

/-- The output cell the handler produces for a row with normalized key
`k`: the value of the first mapping entry for `k` (missing values
filled with the sentinel), or the sentinel when no entry matches. -/
def outCellFor (mapping : List (Cell × Cell)) (k : Cell) : Cell :=
  match mapping.find? (fun p => decide (p.1 = k)) with
  | some p => fillCell NOT_FOUND p.2
  | none => .text NOT_FOUND

/-- The per-row action of the handler: normalize the key cell in place
and append the output cell. -/
def convertRow (mapping : List (Cell × Cell)) (ui : Nat) (r : List Cell) : List Cell :=
  r.set ui (normalizeKey (cellAt r ui)) ++ [outCellFor mapping (normalizeKey (cellAt r ui))]

/-! Helper lemmas about column lookup. -/

theorem colIdx_lt (c : String) : ∀ (l : List String) (i : Nat), colIdx l c = some i → i < l.length := by
  intro l
  induction l with
  | nil => intro i h; simp [colIdx] at h
  | cons a t ih =>
    intro i h
    simp only [List.length_cons]
    by_cases hac : a = c
    · simp [colIdx, hac] at h
      omega
    · simp [colIdx, hac] at h
      obtain ⟨j, hj, hji⟩ := h
      have := ih j hj
      omega

theorem colIdx_not_mem (c : String) : ∀ (l : List String), c ∉ l → colIdx l c = none := by
  intro l
  induction l with
  | nil => intro _; rfl
  | cons a t ih =>
    intro h
    have hac : a ≠ c := by intro he; exact h (he ▸ List.mem_cons_self a t)
    have := ih (fun hm => h (List.mem_cons_of_mem a hm))
    simp [colIdx, hac, this]

theorem colIdx_append_right (c : String) (l2 : List String) :
    ∀ (l1 : List String), c ∉ l1 →
      colIdx (l1 ++ l2) c = (colIdx l2 c).map (· + l1.length) := by
  intro l1
  induction l1 with
  | nil =>
    intro _
    cases h2 : colIdx l2 c <;> simp [h2]
  | cons a t ih =>
    intro h
    have hac : a ≠ c := by intro he; exact h (he ▸ List.mem_cons_self a t)
    have ht := ih (fun hm => h (List.mem_cons_of_mem a hm))
    cases h2 : colIdx l2 c
    · simp [colIdx, hac, ht, h2]
    · simp [colIdx, hac, ht, h2]
      omega

/-! The first-wins content of `drop_duplicates`: looking a key up in the
deduplicated mapping finds exactly the first entry for that key in the
original mapping, or nothing. -/

theorem matchesFor_dedupFirstAux (k : Cell) :
    ∀ (l : List (Cell × Cell)) (seen : List Cell),
      matchesFor (dedupFirstAux seen l) k =
        if k ∈ seen then []
        else match l.find? (fun p => decide (p.1 = k)) with
          | some p => [p]
          | none => [] := by
  intro l
  induction l with
  | nil =>
    intro seen
    by_cases hk : k ∈ seen <;> simp [dedupFirstAux, matchesFor, hk]
  | cons p ps ih =>
    intro seen
    by_cases hps : p.1 ∈ seen
    · rw [show dedupFirstAux seen (p :: ps) = dedupFirstAux seen ps by simp [dedupFirstAux, hps]]
      rw [ih seen]
      by_cases hk : k ∈ seen
      · simp [hk]
      · have hpk : ¬ (p.1 = k) := fun he => hk (he ▸ hps)
        simp [hk, List.find?, hpk]
    · rw [show dedupFirstAux seen (p :: ps) = p :: dedupFirstAux (p.1 :: seen) ps by
        simp [dedupFirstAux, hps]]
      by_cases hpk : p.1 = k
      · have hk : k ∉ seen := fun hkk => hps (hpk ▸ hkk)
        rw [show matchesFor (p :: dedupFirstAux (p.1 :: seen) ps) k
              = p :: matchesFor (dedupFirstAux (p.1 :: seen) ps) k by
            simp [matchesFor, List.filter_cons, hpk]]
        rw [ih (p.1 :: seen)]
        simp [hpk, hk, List.find?]
      · rw [show matchesFor (p :: dedupFirstAux (p.1 :: seen) ps) k
              = matchesFor (dedupFirstAux (p.1 :: seen) ps) k by
            simp [matchesFor, List.filter_cons, hpk]]
        rw [ih (p.1 :: seen)]
        have hkp : ¬ (k = p.1) := fun he => hpk he.symm
        by_cases hk : k ∈ seen
        · simp [hk, List.mem_cons]
        · simp [hk, List.mem_cons, hkp, List.find?, hpk]

theorem matchesFor_dedupFirst (k : Cell) (l : List (Cell × Cell)) :
    matchesFor (dedupFirst l) k =
      match l.find? (fun p => decide (p.1 = k)) with
      | some p => [p]
      | none => [] := by
  rw [dedupFirst, matchesFor_dedupFirstAux]
  simp

/-! Positional helper lemmas. -/

theorem flatMap_eq_map_of_singleton {α β : Type} (f : α → List β) (g : α → β) :
    ∀ (l : List α), (∀ a ∈ l, f a = [g a]) → l.flatMap f = l.map g := by
  intro l
  induction l with
  | nil => intro _; rfl
  | cons a t ih =>
    intro h
    have ha := h a (List.mem_cons_self a t)
    have ht := ih (fun b hb => h b (List.mem_cons_of_mem a hb))
    simp [List.flatMap_cons, ha, ht]

theorem cellAt_append_len (a : List Cell) (x : Cell) (b : List Cell) :
    cellAt (a ++ x :: b) a.length = x := by
  induction a with
  | nil => rfl
  | cons c t ih => simpa [cellAt, List.getD] using ih

theorem set_append_len (a : List Cell) (x y : Cell) (b : List Cell) :
    (a ++ x :: b).set a.length y = a ++ y :: b := by
  induction a with
  | nil => rfl
  | cons c t ih => simp [List.set, ih]

theorem eraseIdx_append_len {α : Type} (a : List α) (x : α) (b : List α) :
    (a ++ x :: b).eraseIdx a.length = a ++ b := by
  induction a with
  | nil => rfl
  | cons c t ih => simp [List.eraseIdx, ih]

theorem cellAt_set_ne (r : List Cell) (i j : Nat) (x : Cell) (h : j ≠ i) :
    cellAt (r.set i x) j = cellAt r j := by
  simp [cellAt, List.getD]
  rw [List.getElem?_set_ne (fun he => h he.symm)]

theorem cellAt_set_self (r : List Cell) (i : Nat) (x : Cell) (h : i < r.length) :
    cellAt (r.set i x) i = x := by
  simp [cellAt, List.getD, List.getElem?_set_self, h]

theorem cellAt_append_lt (a b : List Cell) (j : Nat) (h : j < a.length) :
    cellAt (a ++ b) j = cellAt a j := by
  simp [cellAt, List.getD]
  rw [List.getElem?_append_left h]

theorem getD_map_lt {α β : Type} (f : α → β) (l : List α) (p : Nat) (d : β) (d2 : α)
    (h : p < l.length) : (l.map f).getD p d = f (l.getD p d2) := by
  simp [List.getD, List.getElem?_map]
  rw [List.getElem?_eq_getElem h]
  simp [List.getElem?_eq_getElem, h]

theorem map_id_of_ne {α : Type} [DecidableEq α] (old new : α) :
    ∀ (l : List α), old ∉ l → (l.map (fun c => if c = old then new else c)) = l := by
  intro l
  induction l with
  | nil => intro _; rfl
  | cons a t ih =>
    intro h
    have hao : a ≠ old := fun he => h (he ▸ List.mem_cons_self a t)
    have := ih (fun hm => h (List.mem_cons_of_mem a hm))
    simp [hao, this]

/-! Characterization of the convert handler. -/

theorem mergeLeft_rows_dedup (left : Table) (ui : Nat) (u m v : String)
    (raw : List (Cell × Cell)) :
    (mergeLeft left ui u m v (dedupFirst raw)).rows =
      left.rows.map (fun r =>
        r ++ match raw.find? (fun p => decide (p.1 = cellAt r ui)) with
          | some p => if u = m then [p.2] else [p.1, p.2]
          | none => if u = m then [Cell.missing] else [Cell.missing, Cell.missing]) := by
  simp only [mergeLeft]
  apply flatMap_eq_map_of_singleton
  intro r _
  rw [show matchesFor (dedupFirst raw) (cellAt r ui) = _ from matchesFor_dedupFirst _ _]
  cases h : raw.find? (fun p => decide (p.1 = cellAt r ui)) <;> simp

theorem dropCol_append (cs : List String) (c : String) (rest : List String)
    (rs : List (List Cell)) (h : c ∉ cs) :
    dropCol ⟨cs ++ c :: rest, rs⟩ c =
      ⟨cs ++ rest, rs.map (fun r => r.eraseIdx cs.length)⟩ := by
  have hidx : colIdx (cs ++ c :: rest) c = some cs.length := by
    rw [colIdx_append_right c _ cs h]
    simp [colIdx]
  simp only [dropCol, hidx]
  rw [eraseIdx_append_len]

theorem fillnaCol_append (cs : List String) (c : String) (rs : List (List Cell))
    (h : c ∉ cs) (s : String) :
    fillnaCol ⟨cs ++ [c], rs⟩ c s =
      ⟨cs ++ [c], rs.map (fun r => r.set cs.length (fillCell s (cellAt r cs.length)))⟩ := by
  have hidx : colIdx (cs ++ [c]) c = some cs.length := by
    rw [colIdx_append_right c _ cs h]
    simp [colIdx]
  simp only [fillnaCol, hidx]

theorem convert_eq_ne (user master : Table) (u m v : String) (ui mi vi : Nat)
    (hu : colIdx user.cols u = some ui)
    (hm : colIdx master.cols m = some mi)
    (hv : colIdx master.cols v = some vi)
    (hwf : ∀ r ∈ user.rows, r.length = user.cols.length)
    (hum : u ≠ m)
    (hvu : v ∉ user.cols)
    (hmu : m ∉ user.cols)
    (hmv : m ≠ v)
    (hou : OUT_COL ∉ user.cols) :
    convert user master u m v =
      some ⟨user.cols ++ [OUT_COL],
            user.rows.map (convertRow (mappingRows master mi vi) ui)⟩ := by
  have hui : ui < user.cols.length := colIdx_lt u user.cols ui hu
  unfold convert
  rw [hu, hm, hv]
  simp only [renameCol]
  rw [if_pos hum]
  rw [mergeLeft_rows_dedup]
  simp only [mergeLeft, hum, if_false, ite_false]
  have hcolsR : (user.cols ++ [m, v]).map (fun c => if c = v then OUT_COL else c)
      = user.cols ++ [m, OUT_COL] := by
    rw [List.map_append, map_id_of_ne v OUT_COL user.cols hvu]
    simp [hmv]
  rw [hcolsR]
  rw [dropCol_append user.cols m [OUT_COL] _ hmu]
  rw [fillnaCol_append user.cols OUT_COL _ hou NOT_FOUND]
  simp only [Option.some.injEq, Table.mk.injEq, List.map_map]
  refine ⟨trivial, ?_⟩
  apply List.map_congr_left
  intro r hr
  simp only [Function.comp]
  have hlen : r.length = user.cols.length := hwf r hr
  have hks : cellAt (r.set ui (normalizeKey (cellAt r ui))) ui = normalizeKey (cellAt r ui) :=
    cellAt_set_self r ui _ (by omega)
  simp only [hks]
  have hL : user.cols.length = (r.set ui (normalizeKey (cellAt r ui))).length := by
    rw [List.length_set, hlen]
  rw [hL]
  cases hfind : List.find? (fun p => decide (p.1 = normalizeKey (cellAt r ui))) (mappingRows master mi vi) with
  | none =>
    simp only [hfind]
    rw [eraseIdx_append_len]
    rw [cellAt_append_len, set_append_len]
    simp [convertRow, outCellFor, hfind, fillCell]
  | some p =>
    simp only [hfind]
    rw [eraseIdx_append_len]
    rw [cellAt_append_len, set_append_len]
    simp [convertRow, outCellFor, hfind]

theorem convert_eq_same (user master : Table) (u m v : String) (ui mi vi : Nat)
    (hu : colIdx user.cols u = some ui)
    (hm : colIdx master.cols m = some mi)
    (hv : colIdx master.cols v = some vi)
    (hwf : ∀ r ∈ user.rows, r.length = user.cols.length)
    (hum : u = m)
    (hvu : v ∉ user.cols)
    (hou : OUT_COL ∉ user.cols) :
    convert user master u m v =
      some ⟨user.cols ++ [OUT_COL],
            user.rows.map (convertRow (mappingRows master mi vi) ui)⟩ := by
  have hui : ui < user.cols.length := colIdx_lt u user.cols ui hu
  unfold convert
  rw [hu, hm, hv]
  simp only [renameCol]
  rw [if_neg (fun hne => hne hum)]
  rw [mergeLeft_rows_dedup]
  simp only [mergeLeft, hum, if_true, ite_true]
  have hcolsR : (user.cols ++ [v]).map (fun c => if c = v then OUT_COL else c)
      = user.cols ++ [OUT_COL] := by
    rw [List.map_append, map_id_of_ne v OUT_COL user.cols hvu]
    simp
  rw [hcolsR]
  rw [fillnaCol_append user.cols OUT_COL _ hou NOT_FOUND]
  simp only [Option.some.injEq, Table.mk.injEq, List.map_map]
  refine ⟨trivial, ?_⟩
  apply List.map_congr_left
  intro r hr
  simp only [Function.comp]
  have hlen : r.length = user.cols.length := hwf r hr
  have hks : cellAt (r.set ui (normalizeKey (cellAt r ui))) ui = normalizeKey (cellAt r ui) :=
    cellAt_set_self r ui _ (by omega)
  simp only [hks]
  have hL : user.cols.length = (r.set ui (normalizeKey (cellAt r ui))).length := by
    rw [List.length_set, hlen]
  rw [hL]
  cases hfind : List.find? (fun p => decide (p.1 = normalizeKey (cellAt r ui))) (mappingRows master mi vi) with
  | none =>
    simp only [hfind]
    rw [cellAt_append_len, set_append_len]
    simp [convertRow, outCellFor, hfind, fillCell]
  | some p =>
    simp only [hfind]
    rw [cellAt_append_len, set_append_len]
    simp [convertRow, outCellFor, hfind]

/-- The two cases combined: under the column preconditions, the handler
returns the data columns followed by the output column, and one output
row per data row, each built by `convertRow` from the first matching
entry of the raw (pre-dedup) mapping. -/
theorem convert_eq (user master : Table) (u m v : String) (ui mi vi : Nat)
    (hu : colIdx user.cols u = some ui)
    (hm : colIdx master.cols m = some mi)
    (hv : colIdx master.cols v = some vi)
    (hwf : ∀ r ∈ user.rows, r.length = user.cols.length)
    (hvu : v ∉ user.cols)
    (hmu : u ≠ m → m ∉ user.cols)
    (hmv : m ≠ v)
    (hou : OUT_COL ∉ user.cols) :
    convert user master u m v =
      some ⟨user.cols ++ [OUT_COL],
            user.rows.map (convertRow (mappingRows master mi vi) ui)⟩ := by
  by_cases hum : u = m
  · exact convert_eq_same user master u m v ui mi vi hu hm hv hwf hum hvu hou
  · exact convert_eq_ne user master u m v ui mi vi hu hm hv hwf hum hvu (hmu hum) hmv hou

/-- The output cell of result row `p` is `outCellFor` of the row's
normalized key over the raw mapping. -/
theorem convert_out_cell (user master : Table) (u m v : String) (ui mi vi p : Nat)
    (hu : colIdx user.cols u = some ui)
    (hm : colIdx master.cols m = some mi)
    (hv : colIdx master.cols v = some vi)
    (hwf : ∀ r ∈ user.rows, r.length = user.cols.length)
    (hvu : v ∉ user.cols)
    (hmu : u ≠ m → m ∉ user.cols)
    (hmv : m ≠ v)
    (hou : OUT_COL ∉ user.cols)
    (hp : p < user.rows.length) :
    (convert user master u m v).map (fun t => cellAt (t.rows.getD p []) user.cols.length)
      = some (outCellFor (mappingRows master mi vi)
                (normalizeKey (cellAt (user.rows.getD p []) ui))) := by
  rw [convert_eq user master u m v ui mi vi hu hm hv hwf hvu hmu hmv hou]
  rw [Option.map_some']
  rw [getD_map_lt _ _ p [] [] hp]
  have hmem : user.rows.getD p [] ∈ user.rows := by
    rw [List.getD_eq_getElem user.rows [] hp]
    exact List.getElem_mem hp
  have hlen : (user.rows.getD p []).length = user.cols.length := hwf _ hmem
  rw [convertRow]
  have hL : user.cols.length
      = ((user.rows.getD p []).set ui (normalizeKey (cellAt (user.rows.getD p []) ui))).length := by
    rw [List.length_set, hlen]
  rw [hL, cellAt_append_len]

/-! Claim theorems. -/

/-- Claim C1 counterexample: the worked example of the spec fails on the
code.  With master keys `A1`, `A1`, `B2` and data keys `a1 ` (trailing
space) and `C3`, the claimed result — first row keeping the cell `a1 `
and converting to `X1` — is not what the handler returns: stripping is
applied in place to the data key column and matching is case sensitive,
so `a1` does not match `A1`. -/
theorem convert_spec_example_fails :
    ¬ (convert ⟨["Part"], [[Cell.text "a1 "], [Cell.text "C3"]]⟩
        ⟨["E", "New"],
         [[Cell.text "A1", Cell.text "X1"], [Cell.text "A1", Cell.text "X2"],
          [Cell.text "B2", Cell.text "Y1"]]⟩
        "Part" "E" "New"
      = some ⟨["Part", "Converted Part Number"],
          [[Cell.text "a1 ", Cell.text "X1"],
           [Cell.text "C3", Cell.text "--- NOT FOUND ---"]]⟩) := by decide

/-- Claim C1 amended: on the worked example the handler returns two rows
in order, the first with key cell stripped to `a1` and output
`--- NOT FOUND ---` (case-sensitive matching, `a1` is not `A1`), the
second with key cell `C3` and output `--- NOT FOUND ---`. -/
theorem convert_spec_example_actual :
    convert ⟨["Part"], [[Cell.text "a1 "], [Cell.text "C3"]]⟩
        ⟨["E", "New"],
         [[Cell.text "A1", Cell.text "X1"], [Cell.text "A1", Cell.text "X2"],
          [Cell.text "B2", Cell.text "Y1"]]⟩
        "Part" "E" "New"
      = some ⟨["Part", "Converted Part Number"],
          [[Cell.text "a1", Cell.text "--- NOT FOUND ---"],
           [Cell.text "C3", Cell.text "--- NOT FOUND ---"]]⟩ := by decide

/-- Claim C2: first-wins deduplication.  For any data row whose
normalized key is `k`, if the first master row whose normalized key
equals `k` carries value `val` (in particular when later rows carry the
same key with different values), the output cell for that data row is
`val`. -/
theorem convert_first_wins (user master : Table) (u m v : String) (ui mi vi p : Nat)
    (k k2 val : Cell)
    (hu : colIdx user.cols u = some ui)
    (hm : colIdx master.cols m = some mi)
    (hv : colIdx master.cols v = some vi)
    (hwf : ∀ r ∈ user.rows, r.length = user.cols.length)
    (hvu : v ∉ user.cols)
    (hmu : u ≠ m → m ∉ user.cols)
    (hmv : m ≠ v)
    (hou : OUT_COL ∉ user.cols)
    (hp : p < user.rows.length)
    (hk : normalizeKey (cellAt (user.rows.getD p []) ui) = k)
    (hfind : (mappingRows master mi vi).find? (fun q => decide (q.1 = k)) = some (k2, val))
    (hval : val ≠ Cell.missing) :
    (convert user master u m v).map (fun t => cellAt (t.rows.getD p []) user.cols.length)
      = some val := by
  rw [convert_out_cell user master u m v ui mi vi p hu hm hv hwf hvu hmu hmv hou hp]
  rw [hk]
  simp only [outCellFor, hfind]
  cases val with
  | missing => exact absurd rfl hval
  | text s => rfl
  | num n => rfl

/-- Claim C2 witness: a master with two `A1` rows carrying `X1` then
`X2`; the output for a data row with key `A1 ` is `X1`, the first
occurrence. -/
theorem convert_first_wins_witness :
    (convert ⟨["P"], [[Cell.text "A1 "]]⟩
        ⟨["E", "N"], [[Cell.text "A1", Cell.text "X1"], [Cell.text "A1", Cell.text "X2"]]⟩
        "P" "E" "N").map (fun t => cellAt (t.rows.getD 0 []) 1)
      = some (Cell.text "X1") :=
  convert_first_wins ⟨["P"], [[Cell.text "A1 "]]⟩
    ⟨["E", "N"], [[Cell.text "A1", Cell.text "X1"], [Cell.text "A1", Cell.text "X2"]]⟩
    "P" "E" "N" 0 0 1 0 (Cell.text "A1") (Cell.text "A1") (Cell.text "X1")
    (by decide) (by decide) (by decide) (by decide) (by decide) (by decide) (by decide)
    (by decide) (by decide) (by decide) (by decide) (by decide)

/-- Claim C3: row-count preservation with order and identity.  For
every valid pair of tables — including masters with duplicate
normalized keys before deduplication, so the post-dedup join is
one-to-at-most-one — the result has exactly one row per data row, and
the result rows are precisely the per-row transforms of the data rows
in their original order: the p-th result row is built from the p-th
data row, so no row is added, removed or reordered. -/
theorem convert_row_count (user master : Table) (u m v : String) (ui mi vi : Nat)
    (hu : colIdx user.cols u = some ui)
    (hm : colIdx master.cols m = some mi)
    (hv : colIdx master.cols v = some vi)
    (hwf : ∀ r ∈ user.rows, r.length = user.cols.length)
    (hvu : v ∉ user.cols)
    (hmu : u ≠ m → m ∉ user.cols)
    (hmv : m ≠ v)
    (hou : OUT_COL ∉ user.cols) :
    (convert user master u m v).map (fun t => t.rows.length) = some user.rows.length ∧
    (convert user master u m v).map Table.rows
      = some (user.rows.map (convertRow (mappingRows master mi vi) ui)) := by
  rw [convert_eq user master u m v ui mi vi hu hm hv hwf hvu hmu hmv hou]
  constructor
  · simp
  · rfl

/-- Claim C3 witness: three data rows against a master with a duplicated
key give exactly three result rows, in the original data order (first
row matched first-wins to `X1`, the other two unmatched). -/
theorem convert_row_count_witness :
    (convert ⟨["P"], [[Cell.text "A1"], [Cell.text "B2"], [Cell.text "zz"]]⟩
        ⟨["E", "N"], [[Cell.text "A1", Cell.text "X1"], [Cell.text "A1", Cell.text "X2"]]⟩
        "P" "E" "N").map (fun t => t.rows.length) = some 3 ∧
    (convert ⟨["P"], [[Cell.text "A1"], [Cell.text "B2"], [Cell.text "zz"]]⟩
        ⟨["E", "N"], [[Cell.text "A1", Cell.text "X1"], [Cell.text "A1", Cell.text "X2"]]⟩
        "P" "E" "N").map Table.rows
      = some [[Cell.text "A1", Cell.text "X1"],
              [Cell.text "B2", Cell.text "--- NOT FOUND ---"],
              [Cell.text "zz", Cell.text "--- NOT FOUND ---"]] :=
  convert_row_count ⟨["P"], [[Cell.text "A1"], [Cell.text "B2"], [Cell.text "zz"]]⟩
    ⟨["E", "N"], [[Cell.text "A1", Cell.text "X1"], [Cell.text "A1", Cell.text "X2"]]⟩
    "P" "E" "N" 0 0 1
    (by decide) (by decide) (by decide) (by decide) (by decide) (by decide) (by decide)
    (by decide)

/-- Claim C4: for a data row whose normalized key matches no entry of
the master mapping, the output cell is exactly the literal sentinel
text, delivered in-band in the returned table (the handler returns
`some`, not an error). -/
theorem convert_not_found_sentinel (user master : Table) (u m v : String) (ui mi vi p : Nat)
    (k : Cell)
    (hu : colIdx user.cols u = some ui)
    (hm : colIdx master.cols m = some mi)
    (hv : colIdx master.cols v = some vi)
    (hwf : ∀ r ∈ user.rows, r.length = user.cols.length)
    (hvu : v ∉ user.cols)
    (hmu : u ≠ m → m ∉ user.cols)
    (hmv : m ≠ v)
    (hou : OUT_COL ∉ user.cols)
    (hp : p < user.rows.length)
    (hk : normalizeKey (cellAt (user.rows.getD p []) ui) = k)
    (hfind : (mappingRows master mi vi).find? (fun q => decide (q.1 = k)) = none) :
    (convert user master u m v).map (fun t => cellAt (t.rows.getD p []) user.cols.length)
      = some (Cell.text NOT_FOUND) := by
  rw [convert_out_cell user master u m v ui mi vi p hu hm hv hwf hvu hmu hmv hou hp]
  rw [hk]
  simp only [outCellFor, hfind]

/-- Claim C4 witness: key `C3` absent from the master yields the
sentinel. -/
theorem convert_not_found_sentinel_witness :
    (convert ⟨["P"], [[Cell.text "C3"]]⟩
        ⟨["E", "N"], [[Cell.text "A1", Cell.text "X1"]]⟩
        "P" "E" "N").map (fun t => cellAt (t.rows.getD 0 []) 1)
      = some (Cell.text NOT_FOUND) :=
  convert_not_found_sentinel ⟨["P"], [[Cell.text "C3"]]⟩
    ⟨["E", "N"], [[Cell.text "A1", Cell.text "X1"]]⟩
    "P" "E" "N" 0 0 1 0 (Cell.text "C3")
    (by decide) (by decide) (by decide) (by decide) (by decide) (by decide) (by decide)
    (by decide) (by decide) (by decide) (by decide)

/-- Claim C5: any two key cells that normalize to the same text — for
example a numeric cell and a padded text cell — match in the lookup:
the single master row is found and its value attached. -/
theorem convert_normalized_keys_match (c1 c2 val : Cell)
    (h : normalizeKey c1 = normalizeKey c2) (hval : val ≠ Cell.missing) :
    convert ⟨["K"], [[c1]]⟩ ⟨["MK", "V"], [[c2, val]]⟩ "K" "MK" "V"
      = some ⟨["K", OUT_COL], [[normalizeKey c1, val]]⟩ := by
  rw [convert_eq ⟨["K"], [[c1]]⟩ ⟨["MK", "V"], [[c2, val]]⟩ "K" "MK" "V" 0 0 1
    rfl rfl rfl (by intro r hr; simp at hr; subst hr; rfl)
    (show "V" ∉ ["K"] by decide) (fun _ => show "MK" ∉ ["K"] by decide)
    (show "MK" ≠ "V" by decide) (show OUT_COL ∉ ["K"] by decide)]
  simp only [Option.some.injEq, Table.mk.injEq, List.map_cons, List.map_nil]
  refine ⟨rfl, ?_⟩
  simp only [convertRow, mappingRows, List.map_cons, List.map_nil, outCellFor]
  have hc : cellAt [c1] 0 = c1 := rfl
  have hc2 : cellAt [c2, val] 0 = c2 := rfl
  have hc3 : cellAt [c2, val] 1 = val := rfl
  rw [hc, hc2, hc3]
  rw [List.find?]
  have : decide ((normalizeKey c2, val).1 = normalizeKey c1) = true := by
    simp [h]
  rw [this]
  cases val with
  | missing => exact absurd rfl hval
  | text s => rfl
  | num n => rfl

/-- Claim C5 witness: the number `42` and the text ` 42 ` normalize to
the same text and therefore match. -/
theorem convert_normalized_keys_match_witness :
    normalizeKey (Cell.num 42) = normalizeKey (Cell.text " 42 ") ∧
    convert ⟨["K"], [[Cell.num 42]]⟩ ⟨["MK", "V"], [[Cell.text " 42 ", Cell.text "X1"]]⟩
        "K" "MK" "V"
      = some ⟨["K", OUT_COL], [[normalizeKey (Cell.num 42), Cell.text "X1"]]⟩ :=
  ⟨by decide,
   convert_normalized_keys_match (Cell.num 42) (Cell.text " 42 ") (Cell.text "X1")
     (by decide) (by decide)⟩

/-- Claim C6 counterexample: with distinct key column names `Part` and
`E`, the master key column is NOT retained — the result columns are
just the data columns plus the output column, and `E` is not among
them, contradicting the claim that both key columns survive when the
names differ. -/
theorem convert_master_key_not_retained :
    (convert ⟨["Part"], [[Cell.text "A1"]]⟩
        ⟨["E", "New"], [[Cell.text "A1", Cell.text "X1"]]⟩
        "Part" "E" "New").map Table.cols
      = some ["Part", "Converted Part Number"] ∧
    "E" ∉ ["Part", "Converted Part Number"] := by decide

/-- Claim C6 amended: the result columns are always the data columns
followed by the single output column — the master-side key column is
explicitly dropped when its name differs from the data key column, and
merged into the one shared column when the names coincide; the output
column count is always the data column count plus one. -/
theorem convert_cols (user master : Table) (u m v : String) (ui mi vi : Nat)
    (hu : colIdx user.cols u = some ui)
    (hm : colIdx master.cols m = some mi)
    (hv : colIdx master.cols v = some vi)
    (hwf : ∀ r ∈ user.rows, r.length = user.cols.length)
    (hvu : v ∉ user.cols)
    (hmu : u ≠ m → m ∉ user.cols)
    (hmv : m ≠ v)
    (hou : OUT_COL ∉ user.cols) :
    (convert user master u m v).map Table.cols = some (user.cols ++ [OUT_COL]) := by
  rw [convert_eq user master u m v ui mi vi hu hm hv hwf hvu hmu hmv hou]
  rfl

/-- Claim C6 amended witness: distinct key names, result columns
`Part` and the output column only. -/
theorem convert_cols_witness :
    (convert ⟨["Part"], [[Cell.text "A1"]]⟩
        ⟨["E", "New"], [[Cell.text "A1", Cell.text "X1"]]⟩
        "Part" "E" "New").map Table.cols
      = some (["Part"] ++ [OUT_COL]) :=
  convert_cols ⟨["Part"], [[Cell.text "A1"]]⟩
    ⟨["E", "New"], [[Cell.text "A1", Cell.text "X1"]]⟩
    "Part" "E" "New" 0 0 1
    (by decide) (by decide) (by decide) (by decide) (by decide) (by decide) (by decide)
    (by decide)

/-- Claim C7 counterexample: the data key column does NOT keep its
original cell values — a key cell `a1 ` (trailing space) comes back as
the stripped text `a1`, because the handler strips the key column of
its copy in place before merging. -/
theorem convert_key_cells_changed :
    (convert ⟨["Part"], [[Cell.text "a1 "]]⟩
        ⟨["E", "New"], [[Cell.text "B2", Cell.text "Y1"]]⟩
        "Part" "E" "New").map (fun t => cellAt (t.rows.getD 0 []) 0)
      = some (Cell.text "a1") ∧
    Cell.text "a1" ≠ Cell.text "a1 " := by decide

/-- Claim C7 amended: every data column other than the key column keeps
its original cell values at its original position, while the key column
holds the normalized (text-coerced, stripped) key values; the handler
works on copies, so in this embedding the inputs are untouched values. -/
theorem convert_preserves_nonkey_cells (user master : Table) (u m v : String)
    (ui mi vi p j : Nat)
    (hu : colIdx user.cols u = some ui)
    (hm : colIdx master.cols m = some mi)
    (hv : colIdx master.cols v = some vi)
    (hwf : ∀ r ∈ user.rows, r.length = user.cols.length)
    (hvu : v ∉ user.cols)
    (hmu : u ≠ m → m ∉ user.cols)
    (hmv : m ≠ v)
    (hou : OUT_COL ∉ user.cols)
    (hp : p < user.rows.length)
    (hj : j < user.cols.length)
    (hji : j ≠ ui) :
    (convert user master u m v).map (fun t => cellAt (t.rows.getD p []) j)
        = some (cellAt (user.rows.getD p []) j) ∧
    (convert user master u m v).map (fun t => cellAt (t.rows.getD p []) ui)
        = some (normalizeKey (cellAt (user.rows.getD p []) ui)) := by
  have hui : ui < user.cols.length := colIdx_lt u user.cols ui hu
  rw [convert_eq user master u m v ui mi vi hu hm hv hwf hvu hmu hmv hou]
  rw [Option.map_some', Option.map_some']
  rw [getD_map_lt _ _ p [] [] hp]
  have hmem : user.rows.getD p [] ∈ user.rows := by
    rw [List.getD_eq_getElem user.rows [] hp]
    exact List.getElem_mem hp
  have hlen : (user.rows.getD p []).length = user.cols.length := hwf _ hmem
  rw [convertRow]
  constructor
  · rw [cellAt_append_lt _ _ j (by rw [List.length_set, hlen]; exact hj)]
    rw [cellAt_set_ne _ _ _ _ hji]
  · rw [cellAt_append_lt _ _ ui (by rw [List.length_set, hlen]; exact hui)]
    rw [cellAt_set_self _ _ _ (by rw [hlen]; exact hui)]

/-- Claim C7 amended witness: the `Qty` cell survives unchanged and the
key cell is the normalized key. -/
theorem convert_preserves_nonkey_cells_witness :
    (convert ⟨["Part", "Qty"], [[Cell.text "A1 ", Cell.num 5]]⟩
        ⟨["E", "New"], [[Cell.text "A1", Cell.text "X1"]]⟩
        "Part" "E" "New").map (fun t => cellAt (t.rows.getD 0 []) 1)
        = some (Cell.num 5) ∧
    (convert ⟨["Part", "Qty"], [[Cell.text "A1 ", Cell.num 5]]⟩
        ⟨["E", "New"], [[Cell.text "A1", Cell.text "X1"]]⟩
        "Part" "E" "New").map (fun t => cellAt (t.rows.getD 0 []) 0)
        = some (normalizeKey (Cell.text "A1 ")) :=
  convert_preserves_nonkey_cells ⟨["Part", "Qty"], [[Cell.text "A1 ", Cell.num 5]]⟩
    ⟨["E", "New"], [[Cell.text "A1", Cell.text "X1"]]⟩
    "Part" "E" "New" 0 0 1 0 1
    (by decide) (by decide) (by decide) (by decide) (by decide) (by decide) (by decide)
    (by decide) (by decide) (by decide) (by decide)

/-- Claim C8: for every supported file ending and every behavior of the
parsing engines, `load_data_file` either returns a table or returns the
absence marker together with a diagnostic carrying the file name and
the underlying cause — an exception never escapes, and no silent
`None` without a diagnostic occurs for a supported ending. -/
theorem load_data_file_no_raise (name : String) (eng : Engines) (hr : Nat)
    (h : supportedName (lowerStr name) = true) :
    (∃ t, load_data_file name eng hr = LoadOutcome.table t) ∨
    (∃ e, load_data_file name eng hr = LoadOutcome.failure name e) := by
  by_cases h1 : isTextName (lowerStr name) = true
  · cases hcsv : eng.read_csv (hr - 1) with
    | ok t => exact Or.inl ⟨t, by simp [load_data_file, tryBody, Except.map, h1, hcsv]⟩
    | error e => exact Or.inr ⟨e, by simp [load_data_file, tryBody, Except.map, h1, hcsv]⟩
  · by_cases h2 : endsWithStr (lowerStr name) ".xlsb" = true
    · cases hb : eng.pyxlsb (hr - 1) with
      | ok t => exact Or.inl ⟨t, by simp [load_data_file, tryBody, Except.map, h1, h2, hb]⟩
      | error e => exact Or.inr ⟨e, by simp [load_data_file, tryBody, Except.map, h1, h2, hb]⟩
    · by_cases h3 : isExcelName (lowerStr name) = true
      · cases hop : eng.openpyxl (hr - 1) with
        | ok t =>
          exact Or.inl ⟨t, by simp [load_data_file, tryBody, Except.map, h1, h2, h3, hop]⟩
        | error e =>
          by_cases hc : (containsSub (lowerStr e) "zip file"
              || endsWithStr (lowerStr name) ".xls") = true
          · cases hx : eng.xlrd 0 (hr - 1) with
            | ok t =>
              exact Or.inl ⟨t, by
                simp [load_data_file, tryBody, Except.map, h1, h2, h3, hop, hc, hx]⟩
            | error e2 =>
              exact Or.inr ⟨e2, by
                simp [load_data_file, tryBody, Except.map, h1, h2, h3, hop, hc, hx]⟩
          · exact Or.inr ⟨e, by simp [load_data_file, tryBody, Except.map, h1, h2, h3, hop, hc]⟩
      · exfalso
        rw [supportedName] at h
        simp [h1, h2, h3] at h

/-- Claim C8 witness: a csv whose parse fails still yields a diagnostic
result rather than an escaping exception. -/
theorem load_data_file_no_raise_witness :
    (∃ t, load_data_file "data.csv"
        ⟨fun _ => Except.error "bad header", fun _ => Except.error "bad header",
         fun _ => Except.error "bad header", fun _ _ => Except.error "bad header"⟩ 1
      = LoadOutcome.table t) ∨
    (∃ e, load_data_file "data.csv"
        ⟨fun _ => Except.error "bad header", fun _ => Except.error "bad header",
         fun _ => Except.error "bad header", fun _ _ => Except.error "bad header"⟩ 1
      = LoadOutcome.failure "data.csv" e) :=
  load_data_file_no_raise "data.csv"
    ⟨fun _ => Except.error "bad header", fun _ => Except.error "bad header",
     fun _ => Except.error "bad header", fun _ _ => Except.error "bad header"⟩ 1
    (by decide)

/-- Claim C9: for a spreadsheet-named file whose primary (openpyxl)
read throws `e`, the loader retries with the legacy xlrd reader at
stream position 0 exactly when the message mentions `zip file` or the
name ends in `.xls`; any other failure propagates into the catch-all
as a diagnostic with the original cause, with no retry. -/
theorem load_data_file_fallback (name : String) (eng : Engines) (hr : Nat) (e : String)
    (h1 : isTextName (lowerStr name) = false)
    (h2 : endsWithStr (lowerStr name) ".xlsb" = false)
    (h3 : isExcelName (lowerStr name) = true)
    (hop : eng.openpyxl (hr - 1) = Except.error e) :
    ((containsSub (lowerStr e) "zip file" || endsWithStr (lowerStr name) ".xls") = true →
      load_data_file name eng hr =
        match eng.xlrd 0 (hr - 1) with
        | Except.ok t => LoadOutcome.table t
        | Except.error e2 => LoadOutcome.failure name e2) ∧
    ((containsSub (lowerStr e) "zip file" || endsWithStr (lowerStr name) ".xls") = false →
      load_data_file name eng hr = LoadOutcome.failure name e) := by
  constructor
  · intro hc
    cases hx : eng.xlrd 0 (hr - 1) with
    | ok t => simp [load_data_file, tryBody, Except.map, h1, h2, h3, hop, hc, hx]
    | error e2 => simp [load_data_file, tryBody, Except.map, h1, h2, h3, hop, hc, hx]
  · intro hc
    simp [load_data_file, tryBody, Except.map, h1, h2, h3, hop, hc]

/-- Claim C9 witness: an xlsx whose openpyxl failure mentions the zip
container is retried with xlrd from position 0. -/
theorem load_data_file_fallback_witness :
    ((containsSub (lowerStr "File is not a zip file") "zip file"
        || endsWithStr (lowerStr "book.xlsx") ".xls") = true →
      load_data_file "book.xlsx"
        ⟨fun _ => Except.error "no", fun _ => Except.error "no",
         fun _ => Except.error "File is not a zip file",
         fun _ _ => Except.ok ⟨["A"], [[Cell.num 1]]⟩⟩ 1 =
        match (⟨fun _ => Except.error "no", fun _ => Except.error "no",
               fun _ => Except.error "File is not a zip file",
               fun _ _ => Except.ok ⟨["A"], [[Cell.num 1]]⟩⟩ : Engines).xlrd 0 (1 - 1) with
        | Except.ok t => LoadOutcome.table t
        | Except.error e2 => LoadOutcome.failure "book.xlsx" e2) ∧
    ((containsSub (lowerStr "File is not a zip file") "zip file"
        || endsWithStr (lowerStr "book.xlsx") ".xls") = false →
      load_data_file "book.xlsx"
        ⟨fun _ => Except.error "no", fun _ => Except.error "no",
         fun _ => Except.error "File is not a zip file",
         fun _ _ => Except.ok ⟨["A"], [[Cell.num 1]]⟩⟩ 1 =
        LoadOutcome.failure "book.xlsx" "File is not a zip file") :=
  load_data_file_fallback "book.xlsx"
    ⟨fun _ => Except.error "no", fun _ => Except.error "no",
     fun _ => Except.error "File is not a zip file",
     fun _ _ => Except.ok ⟨["A"], [[Cell.num 1]]⟩⟩ 1 "File is not a zip file"
    (by decide) (by decide) (by decide) rfl

/-- Claim C10: a data row whose normalized key DOES match a master
entry whose value cell is missing still gets the literal not-found
sentinel — the output does not distinguish a missing mapping from a
mapped-to-missing value. -/
theorem convert_matched_missing_value_sentinel (user master : Table) (u m v : String)
    (ui mi vi p : Nat) (k k2 : Cell)
    (hu : colIdx user.cols u = some ui)
    (hm : colIdx master.cols m = some mi)
    (hv : colIdx master.cols v = some vi)
    (hwf : ∀ r ∈ user.rows, r.length = user.cols.length)
    (hvu : v ∉ user.cols)
    (hmu : u ≠ m → m ∉ user.cols)
    (hmv : m ≠ v)
    (hou : OUT_COL ∉ user.cols)
    (hp : p < user.rows.length)
    (hk : normalizeKey (cellAt (user.rows.getD p []) ui) = k)
    (hfind : (mappingRows master mi vi).find? (fun q => decide (q.1 = k))
      = some (k2, Cell.missing)) :
    (convert user master u m v).map (fun t => cellAt (t.rows.getD p []) user.cols.length)
      = some (Cell.text NOT_FOUND) := by
  rw [convert_out_cell user master u m v ui mi vi p hu hm hv hwf hvu hmu hmv hou hp]
  rw [hk]
  simp only [outCellFor, hfind]
  rfl

/-- Claim C10 witness: key `A1` maps to a missing value; the output is
the sentinel. -/
theorem convert_matched_missing_value_sentinel_witness :
    (convert ⟨["P"], [[Cell.text "A1"]]⟩
        ⟨["E", "N"], [[Cell.text "A1", Cell.missing]]⟩
        "P" "E" "N").map (fun t => cellAt (t.rows.getD 0 []) 1)
      = some (Cell.text NOT_FOUND) :=
  convert_matched_missing_value_sentinel ⟨["P"], [[Cell.text "A1"]]⟩
    ⟨["E", "N"], [[Cell.text "A1", Cell.missing]]⟩
    "P" "E" "N" 0 0 1 0 (Cell.text "A1") (Cell.text "A1")
    (by decide) (by decide) (by decide) (by decide) (by decide) (by decide) (by decide)
    (by decide) (by decide) (by decide) (by decide)
